import Mathlib

/-!
Verification of the kuisnesa analytics core (src/utils.py) and the
response-creation path (src/crud.py, src/models.py).

Modelling conventions.
Python strings are modelled as lists of Unicode codepoints (`List Nat`);
the character classes used by the source (the regexes in clean_text, the
sklearn token pattern, str.split and str.strip) are modelled on their
ASCII fragment, which is the fragment the source exercises.  Python
floats are modelled as exact rationals.  External numeric libraries that
the source only reads componentwise (the fitted LDA components matrix of
sklearn, the TF-IDF column sums, the TextBlob polarity analyzer) are
modelled as oracle parameters: the surrounding control flow, shapes and
thresholds - the content of the claims - are embedded faithfully from
the source and proved for every oracle.
-/

namespace Kuisnesa

/-- A Python string, as its list of codepoints. -/
abbrev PyStr := List Nat

/-- Conversion from a Lean string literal to the codepoint model. -/
def pystr (s : String) : PyStr := s.data.map Char.toNat

/-- ASCII fragment of the regex class \s used by clean_text. -/
def isSpaceCh (c : Nat) : Bool :=
  c = 32 || c = 9 || c = 10 || c = 13 || c = 11 || c = 12

/-- Decimal digit codepoint. -/
def isDigitCh (c : Nat) : Bool := 48 ≤ c && c ≤ 57

/-- Uppercase ASCII letter codepoint. -/
def isUpperCh (c : Nat) : Bool := 65 ≤ c && c ≤ 90

/-- Lowercase ASCII letter codepoint. -/
def isLowerCh (c : Nat) : Bool := 97 ≤ c && c ≤ 122

/-- The regex class [a-zA-Z0-9]. -/
def isAlnumCh (c : Nat) : Bool := isDigitCh c || isUpperCh c || isLowerCh c

/-- str.lower on the ASCII fragment. -/
def lowerCh (c : Nat) : Nat := if 65 ≤ c ∧ c ≤ 90 then c + 32 else c

/-- Characters kept by the second substitution of clean_text, which
deletes every character outside the class [^a-zA-Z0-9\s]. -/
def keepCh (c : Nat) : Bool := isAlnumCh c || isSpaceCh c

/-- The first substitution of clean_text, replacing every maximal
whitespace run matched by \s+ with a single space. -/
def collapseWS : List Nat → List Nat
  | [] => []
  | c :: cs =>
    if isSpaceCh c then
      match collapseWS cs with
      | d :: r => if d = 32 then d :: r else 32 :: d :: r
      | [] => [32]
    else c :: collapseWS cs

/-- Right-hand side of str.strip: remove the trailing whitespace run. -/
def rstripWS : List Nat → List Nat
  | [] => []
  | c :: cs =>
    match rstripWS cs with
    | [] => if isSpaceCh c then [] else [c]
    | d :: r => c :: d :: r

/-- str.strip: remove leading and trailing whitespace. -/
def pyStrip (l : List Nat) : List Nat := rstripWS (l.dropWhile isSpaceCh)

/-- clean_text from src/utils.py: lower, collapse whitespace runs,
drop characters outside [a-zA-Z0-9\s], strip. -/
def clean_text (text : PyStr) : PyStr :=
  if text = [] then []
  else pyStrip (List.filter keepCh (collapseWS (text.map lowerCh)))

/-- A response row as the analytics functions see it: only the answer
field is read; None is modelled as none and a present string as some. -/
structure SResponse where
  answer : Option PyStr
deriving DecidableEq

/-- Python truthiness of the answer field: None and the empty string are falsy. -/
def pyTruthy : Option PyStr → Bool
  | none => false
  | some s => !s.isEmpty

/-- The string content of an answer (meaningful when truthy). -/
def answerVal : Option PyStr → PyStr
  | none => []
  | some s => s

/-- preprocess_responses from src/utils.py:
[clean_text(r.answer) for r in responses if r.answer]. -/
def preprocess_responses (responses : List SResponse) : List PyStr :=
  (responses.filter (fun r => pyTruthy r.answer)).map
    (fun r => clean_text (answerVal r.answer))

/-- Maximal runs of characters satisfying p, in order (the regex \w+ / split behaviour). -/
def runsBy (p : Nat → Bool) : List Nat → List (List Nat)
  | [] => []
  | c :: cs =>
    if p c then
      match cs with
      | d :: _ =>
        if p d then
          match runsBy p cs with
          | t :: ts => (c :: t) :: ts
          | [] => [[c]]
        else [c] :: runsBy p cs
      | [] => [[c]]
    else runsBy p cs

/-- Word character of the sklearn token pattern \w (ASCII fragment). -/
def isWordCh (c : Nat) : Bool := isAlnumCh c || c = 95

/-- The sklearn default analyzer: lowercase, then the tokens matched by
the pattern \b\w\w+\b, i.e. maximal word-character runs of length at least two. -/
def skTokenize (doc : PyStr) : List PyStr :=
  (runsBy isWordCh (doc.map lowerCh)).filter (fun t => 2 ≤ t.length)

/-- The sklearn built-in English stop word list, passed as
stop_words=english by both vectorizers in src/utils.py. -/
def englishStopWords : List String :=
  ["a", "about", "above", "across", "after", "afterwards", "again", "against",
   "all", "almost", "alone", "along", "already", "also", "although", "always",
   "am", "among", "amongst", "amoungst", "amount", "an", "and", "another",
   "any", "anyhow", "anyone", "anything", "anyway", "anywhere", "are", "around",
   "as", "at", "back", "be", "became", "because", "become", "becomes",
   "becoming", "been", "before", "beforehand", "behind", "being", "below",
   "beside", "besides", "between", "beyond", "bill", "both", "bottom", "but",
   "by", "call", "can", "cannot", "cant", "co", "computer", "con", "could",
   "couldnt", "cry", "de", "describe", "detail", "do", "done", "down", "due",
   "during", "each", "eg", "eight", "either", "eleven", "else", "elsewhere",
   "empty", "enough", "etc", "even", "ever", "every", "everyone", "everything",
   "everywhere", "except", "few", "fifteen", "fifty", "fill", "find", "fire",
   "first", "five", "for", "former", "formerly", "forty", "found", "four",
   "from", "front", "full", "further", "get", "give", "go", "had", "has",
   "hasnt", "have", "he", "hence", "her", "here", "hereafter", "hereby",
   "herein", "hereupon", "hers", "herself", "him", "himself", "his", "how",
   "however", "hundred", "i", "ie", "if", "in", "inc", "indeed", "interest",
   "into", "is", "it", "its", "itself", "keep", "last", "latter", "latterly",
   "least", "less", "ltd", "made", "many", "may", "me", "meanwhile", "might",
   "mill", "mine", "more", "moreover", "most", "mostly", "move", "much",
   "must", "my", "myself", "name", "namely", "neither", "never",
   "nevertheless", "next", "nine", "no", "nobody", "none", "noone", "nor",
   "not", "nothing", "now", "nowhere", "of", "off", "often", "on", "once",
   "one", "only", "onto", "or", "other", "others", "otherwise", "our", "ours",
   "ourselves", "out", "over", "own", "part", "per", "perhaps", "please",
   "put", "rather", "re", "same", "see", "seem", "seemed", "seeming", "seems",
   "serious", "several", "she", "should", "show", "side", "since", "sincere",
   "six", "sixty", "so", "some", "somehow", "someone", "something",
   "sometime", "sometimes", "somewhere", "still", "such", "system", "take",
   "ten", "than", "that", "the", "their", "them", "themselves", "then",
   "thence", "there", "thereafter", "thereby", "therefore", "therein",
   "thereupon", "these", "they", "thick", "thin", "third", "this", "those",
   "though", "three", "through", "throughout", "thru", "thus", "to",
   "together", "too", "top", "toward", "towards", "twelve", "twenty", "two",
   "un", "under", "until", "up", "upon", "us", "very", "via", "was", "we",
   "well", "were", "what", "whatever", "when", "whence", "whenever", "where",
   "whereafter", "whereas", "whereby", "wherein", "whereupon", "wherever",
   "whether", "which", "while", "whither", "who", "whoever", "whole", "whom",
   "whose", "why", "will", "with", "within", "without", "would", "yet", "you",
   "your", "yours", "yourself", "yourselves"]

/-- The stop word list in the codepoint model. -/
def stopWordsP : List PyStr := englishStopWords.map pystr

/-- Lexicographic order on codepoint lists (the alphabetical order sklearn
uses for its sorted feature names). -/
def lexLeB : List Nat → List Nat → Bool
  | [], _ => true
  | _ :: _, [] => false
  | a :: as, b :: bs => if a < b then true else if b < a then false else lexLeB as bs

/-- Sort a token list alphabetically. -/
def sortTokens (l : List PyStr) : List PyStr :=
  List.insertionSort (fun a b => lexLeB a b = true) l

/-- Document frequency of a token over the corpus. -/
def docFreq (texts : List PyStr) (t : PyStr) : Nat :=
  (texts.filter (fun d => (skTokenize d).contains t)).length

/-- The raw vocabulary: every token of every document, stop words
removed, one entry per distinct token. -/
def rawVocab (texts : List PyStr) : List PyStr :=
  ((texts.map skTokenize).flatten.filter (fun t => !stopWordsP.contains t)).dedup

/-- The document-frequency pruning mask for min_df = minDf and
max_df = maxNum/maxDen. -/
def dfKeep (minDf maxNum maxDen : Nat) (texts : List PyStr) (t : PyStr) : Bool :=
  minDf ≤ docFreq texts t && docFreq texts t * maxDen ≤ maxNum * texts.length

/-- The pruned, alphabetically ordered vocabulary. -/
def prunedVocab (minDf maxNum maxDen : Nat) (texts : List PyStr) : List PyStr :=
  (sortTokens (rawVocab texts)).filter (dfKeep minDf maxNum maxDen texts)

/-- The vocabulary a sklearn vectorizer builds for min_df = minDf and
max_df = maxNum/maxDen, including the error cases the library raises:
an empty raw vocabulary, an inconsistent min_df/max_df pair, and a
vocabulary emptied by document-frequency pruning. -/
def buildVocabulary (minDf maxNum maxDen : Nat) (texts : List PyStr) :
    Except String (List PyStr) :=
  if (rawVocab texts).isEmpty then
    .error "empty vocabulary; perhaps the documents only contain stop words"
  else if maxNum * texts.length < minDf * maxDen then
    .error "max_df corresponds to fewer documents than min_df"
  else if (prunedVocab minDf maxNum maxDen texts).isEmpty then
    .error "After pruning, no terms remain. Try a lower min_df or a higher max_df."
  else .ok (prunedVocab minDf maxNum maxDen texts)

deriving instance DecidableEq for Except

/-- Order on (value, index) pairs realising a stable ascending argsort. -/
def qnLe (a b : ℚ × ℕ) : Prop := a.1 < b.1 ∨ (a.1 = b.1 ∧ a.2 ≤ b.2)

instance : DecidableRel qnLe := fun a b => by
  unfold qnLe; infer_instance

instance : IsTotal (ℚ × ℕ) qnLe := by
  constructor
  intro a b
  rcases lt_trichotomy a.1 b.1 with h | h | h
  · exact Or.inl (Or.inl h)
  · rcases Nat.le_total a.2 b.2 with h2 | h2
    · exact Or.inl (Or.inr ⟨h, h2⟩)
    · exact Or.inr (Or.inr ⟨h.symm, h2⟩)
  · exact Or.inr (Or.inl h)

instance : IsTrans (ℚ × ℕ) qnLe := by
  constructor
  intro a b c hab hbc
  rcases hab with h1 | ⟨e1, n1⟩
  · rcases hbc with h2 | ⟨e2, _⟩
    · exact Or.inl (h1.trans h2)
    · exact Or.inl (e2 ▸ h1)
  · rcases hbc with h2 | ⟨e2, n2⟩
    · exact Or.inl (e1 ▸ h2)
    · exact Or.inr ⟨e1.trans e2, n1.trans n2⟩

/-- numpy argsort of a row, ascending, ties resolved by index. -/
def argsortAsc (row : List ℚ) : List ℕ :=
  (List.insertionSort qnLe ((List.range row.length).map (fun i => (row.getD i 0, i)))).map
    Prod.snd

/-- Python slicing l[s:] for an arbitrary integer start, including the
l[-0:] = l quirk that the source hits when a caller passes 0. -/
def pyTail (s : Int) (l : List α) : List α :=
  if 0 ≤ s then l.drop s.toNat else l.drop (l.length - (-s).toNat)

/-- One topic of the LDA result dictionary. -/
structure Topic where
  topic_id : Nat
  words : List PyStr
  weights : List ℚ
deriving DecidableEq

/-- The possible outcomes of lda_topic_modeling: the structured error
dictionary, a raised ValueError from the vectorizer, or the topics payload. -/
inductive TopicResult where
  | errorDict (msg : String)
  | valueError (msg : String)
  | ok (topics : List Topic) (n_responses : Nat)
deriving DecidableEq

/-- One row of the fitted components matrix, as the list of its first F
entries (F the vocabulary size). -/
def ldaRow (comp : Nat → Nat → ℚ) (F idx : Nat) : List ℚ :=
  (List.range F).map (comp idx)

/-- The selected feature indices of one topic:
topic.argsort()[-n_words:][::-1]. -/
def ldaSel (row : List ℚ) (n_words : Nat) : List ℕ :=
  (pyTail (-(n_words : Int)) (argsortAsc row)).reverse

/-- The dictionary built for one topic. -/
def ldaTopic (comp : Nat → Nat → ℚ) (voc : List PyStr) (n_words idx : Nat) : Topic :=
  { topic_id := idx + 1
    words := (ldaSel (ldaRow comp voc.length idx) n_words).map (fun i => voc.getD i [])
    weights := (ldaSel (ldaRow comp voc.length idx) n_words).map
      (fun i => (ldaRow comp voc.length idx).getD i 0) }

/-- lda_topic_modeling from src/utils.py.  The fitted components matrix of
sklearn is an external numeric artifact and enters as the oracle comp
(row index, column index to weight); everything else - preprocessing, the
insufficient-data guard, CountVectorizer(max_df=0.95, min_df=2,
stop_words=english), and the per-topic top-word selection
topic.argsort()[-n_words:][::-1] - is embedded from the source. -/
def lda_topic_modeling (comp : Nat → Nat → ℚ) (responses : List SResponse)
    (n_topics : Nat := 3) (n_words : Nat := 5) : TopicResult :=
  if (preprocess_responses responses).length < n_topics then
    .errorDict "Not enough responses for topic modeling"
  else
    match buildVocabulary 2 95 100 (preprocess_responses responses) with
    | .error m => .valueError m
    | .ok voc =>
      .ok ((List.range n_topics).map (ldaTopic comp voc n_words))
        (preprocess_responses responses).length

/-- One keyword entry of extract_keywords. -/
structure Keyword where
  word : PyStr
  score : ℚ
deriving DecidableEq

/-- Outcomes of extract_keywords: the keywords payload or a raised
ValueError from the vectorizer. -/
inductive KeywordResult where
  | valueError (msg : String)
  | ok (keywords : List Keyword)
deriving DecidableEq

/-- extract_keywords from src/utils.py.  The TF-IDF column sums are the
external numeric artifact and enter as the oracle scores (feature index
to score); the empty-corpus guard, TfidfVectorizer(max_df=0.8, min_df=1,
stop_words=english) and the slice tfidf_scores.argsort()[-top_n:][::-1]
are embedded from the source. -/
def extract_keywords (scores : Nat → ℚ) (responses : List SResponse)
    (top_n : Int := 10) : KeywordResult :=
  if (preprocess_responses responses).length = 0 then .ok []
  else
    match buildVocabulary 1 8 10 (preprocess_responses responses) with
    | .error m => .valueError m
    | .ok voc =>
      .ok (((pyTail (-top_n) (argsortAsc ((List.range voc.length).map scores))).reverse).map
        (fun i => ⟨voc.getD i [],
          ((List.range voc.length).map scores).getD i 0⟩))

/-- Floor of a rational as an integer (Python-style floor division). -/
def qfloor (q : ℚ) : ℤ := q.num.fdiv q.den

/-- Python round(x, d): round half to even at d decimal places, on the
exact-rational idealisation of the float value. -/
def pyRound (d : Nat) (q : ℚ) : ℚ :=
  let m : ℚ := (10 : ℚ) ^ d
  let x := q * m
  let f := qfloor x
  let r := x - f
  let n : ℤ :=
    if r < 1/2 then f
    else if 1/2 < r then f + 1
    else if f % 2 = 0 then f else f + 1
  (n : ℚ) / m

/-- The threshold rule of analyze_sentiment: polarity above 0.1 is
positive, below -0.1 negative, otherwise neutral. -/
def classifyPol (p : ℚ) : String :=
  if 1/10 < p then "positive"
  else if p < -(1/10) then "negative"
  else "neutral"

/-- One entry of the details list of analyze_sentiment. -/
structure SentimentDetail where
  answer : PyStr
  sentiment : String
  polarity : ℚ
deriving DecidableEq

/-- The summary counter dictionary of analyze_sentiment. -/
structure SentimentSummary where
  positive : Nat
  neutral : Nat
  negative : Nat
deriving DecidableEq

/-- sentiments[sentiment] += 1. -/
def bumpSummary (c : SentimentSummary) (lbl : String) : SentimentSummary :=
  if lbl = "positive" then { c with positive := c.positive + 1 }
  else if lbl = "negative" then { c with negative := c.negative + 1 }
  else { c with neutral := c.neutral + 1 }

/-- The loop of analyze_sentiment: skip falsy answers, classify the rest,
count per label and record a detail with the polarity rounded to three
decimals.  The TextBlob polarity is the external lexicon analyzer and
enters as the oracle pol. -/
def sentimentLoop (pol : PyStr → ℚ) : List SResponse → SentimentSummary × List SentimentDetail
  | [] => (⟨0, 0, 0⟩, [])
  | r :: rs =>
    let acc := sentimentLoop pol rs
    if pyTruthy r.answer then
      (bumpSummary acc.1 (classifyPol (pol (answerVal r.answer))),
        ⟨answerVal r.answer, classifyPol (pol (answerVal r.answer)),
          pyRound 3 (pol (answerVal r.answer))⟩ :: acc.2)
    else acc

/-- The result dictionary of analyze_sentiment. -/
structure SentimentOut where
  summary : SentimentSummary
  details : List SentimentDetail
  total : Nat
deriving DecidableEq

/-- analyze_sentiment from src/utils.py. -/
def analyze_sentiment (pol : PyStr → ℚ) (responses : List SResponse) : SentimentOut :=
  ⟨(sentimentLoop pol responses).1, (sentimentLoop pol responses).2,
    (sentimentLoop pol responses).2.length⟩

/-- Number of words of an answer: len(text.split()), the number of
maximal non-whitespace runs. -/
def wordCount (t : PyStr) : Nat := (runsBy (fun c => !isSpaceCh c) t).length

/-- The statistics dictionary of text_statistics.  The source stores
std_words = round(np.std(word_counts), 2); to stay inside the rationals
the model carries the population variance var_words, whose square root
the source rounds. -/
structure TextStats where
  total_responses : Nat
  avg_words : ℚ
  avg_chars : ℚ
  min_words : Nat
  max_words : Nat
  total_words : Nat
  median_words : ℚ
  var_words : ℚ
deriving DecidableEq

/-- Outcomes of text_statistics. -/
inductive StatsResult where
  | error (msg : String)
  | ok (stats : TextStats)
deriving DecidableEq

/-- The raw texts kept by text_statistics: [r.answer for r in responses if r.answer]. -/
def truthyAnswers (rs : List SResponse) : List PyStr :=
  (rs.filter (fun r => pyTruthy r.answer)).map (fun r => answerVal r.answer)

/-- Python min over a nonempty list (0 on the empty list, never reached). -/
def listMinN : List Nat → Nat
  | [] => 0
  | [x] => x
  | x :: y :: xs => min x (listMinN (y :: xs))

/-- Python max over a nonempty list (0 on the empty list, never reached). -/
def listMaxN : List Nat → Nat
  | [] => 0
  | [x] => x
  | x :: y :: xs => max x (listMaxN (y :: xs))

/-- np.mean as an exact rational. -/
def qMean (l : List Nat) : ℚ := (l.sum : ℚ) / l.length

/-- np.median: middle element of the sorted list, or the mean of the two
middle elements for an even length. -/
def qMedian (l : List Nat) : ℚ :=
  let s := List.insertionSort (· ≤ ·) l
  let n := s.length
  if n % 2 = 1 then (s.getD (n / 2) 0 : ℚ)
  else ((s.getD (n / 2 - 1) 0 : ℚ) + (s.getD (n / 2) 0 : ℚ)) / 2

/-- Population variance, the square of np.std. -/
def qVar (l : List Nat) : ℚ :=
  (l.map (fun x => ((x : ℚ) - qMean l) ^ 2)).sum / l.length

/-- The statistics record text_statistics builds from a nonempty list of texts. -/
def tsOf (texts : List PyStr) : TextStats :=
  { total_responses := texts.length
    avg_words := pyRound 2 (qMean (texts.map wordCount))
    avg_chars := pyRound 2 (qMean (texts.map List.length))
    min_words := listMinN (texts.map wordCount)
    max_words := listMaxN (texts.map wordCount)
    total_words := (texts.map wordCount).sum
    median_words := pyRound 2 (qMedian (texts.map wordCount))
    var_words := qVar (texts.map wordCount) }

/-- text_statistics from src/utils.py. -/
def text_statistics (rs : List SResponse) : StatsResult :=
  if (truthyAnswers rs).isEmpty then .error "No text data available"
  else .ok (tsOf (truthyAnswers rs))

/-- A stored Response row (src/models.py): the fields create_response
writes and the uniqueness constraint reads. -/
structure DBResponse where
  user_id : Nat
  question_id : Nat
  answer : PyStr
deriving DecidableEq

/-- The FastAPI HTTPException raised by create_response. -/
structure HTTPException where
  status_code : Nat
  detail : String
deriving DecidableEq

/-- The responses table. -/
structure DBState where
  responses : List DBResponse
deriving DecidableEq

/-- create_response from src/crud.py: query for an existing row with the
same (user_id, question_id), raise HTTP 400 if present and leave the
store untouched, otherwise append the new row. -/
def create_response (db : DBState) (user_id question_id : Nat) (answer : PyStr) :
    DBState × Except HTTPException DBResponse :=
  match db.responses.find? (fun r => r.user_id == user_id && r.question_id == question_id) with
  | some _ => (db, .error ⟨400, "Maaf, Anda sudah mengisi kuisioner ini sebelumnya."⟩)
  | none =>
    let row : DBResponse := ⟨user_id, question_id, answer⟩
    (⟨db.responses ++ [row]⟩, .ok row)

/-- The invariant of the unique_user_response constraint in src/models.py:
no two rows share the (user_id, question_id) pair. -/
def uniquePairs (db : DBState) : Prop :=
  db.responses.Pairwise (fun r s => ¬(r.user_id = s.user_id ∧ r.question_id = s.question_id))

instance (db : DBState) : Decidable (uniquePairs db) := by
  unfold uniquePairs; infer_instance

/-! Helper lemmas about the cleaning pipeline. -/

/-- The output alphabet the spec ascribes to cleaned text: [a-z0-9 ]. -/
def goodCh (c : Nat) : Bool := isLowerCh c || isDigitCh c || c = 32

/-- No two adjacent whitespace characters. -/
def NoAdjSpaces (l : List Nat) : Prop :=
  l.Chain' (fun a b => ¬(isSpaceCh a = true ∧ isSpaceCh b = true))

theorem mem_collapseWS {c : Nat} :
    ∀ {l : List Nat}, c ∈ collapseWS l → c = 32 ∨ (c ∈ l ∧ isSpaceCh c = false)
  | [], h => absurd h (List.not_mem_nil c)
  | d :: cs, h => by
    by_cases hsp : isSpaceCh d
    · rcases hr : collapseWS cs with _ | ⟨e, r⟩ <;>
        rw [collapseWS, if_pos hsp, hr] at h
      · simp at h; exact Or.inl h
      · dsimp only at h
        by_cases he : e = 32
        · rw [if_pos he] at h
          rcases mem_collapseWS (hr ▸ h) with h32 | ⟨hm, hns⟩
          · exact Or.inl h32
          · exact Or.inr ⟨List.mem_cons_of_mem d hm, hns⟩
        · rw [if_neg he] at h
          rcases List.mem_cons.1 h with rfl | h2
          · exact Or.inl rfl
          · rcases mem_collapseWS (hr ▸ h2) with h32 | ⟨hm, hns⟩
            · exact Or.inl h32
            · exact Or.inr ⟨List.mem_cons_of_mem d hm, hns⟩
    · rw [collapseWS, if_neg hsp] at h
      rcases List.mem_cons.1 h with rfl | h2
      · exact Or.inr ⟨List.mem_cons_self c cs, by simpa using hsp⟩
      · rcases mem_collapseWS h2 with h32 | ⟨hm, hns⟩
        · exact Or.inl h32
        · exact Or.inr ⟨List.mem_cons_of_mem d hm, hns⟩

theorem collapseWS_noAdjSpaces : ∀ l : List Nat, NoAdjSpaces (collapseWS l)
  | [] => List.chain'_nil
  | c :: cs => by
    have ih := collapseWS_noAdjSpaces cs
    by_cases hsp : isSpaceCh c
    · rcases hr : collapseWS cs with _ | ⟨e, r⟩ <;> rw [collapseWS, if_pos hsp, hr]
      · exact List.chain'_singleton 32
      · dsimp only
        by_cases he : e = 32
        · rw [if_pos he]; exact hr ▸ ih
        · rw [if_neg he]
          refine List.chain'_cons.2 ⟨fun ⟨_, hes⟩ => ?_, hr ▸ ih⟩
          rcases mem_collapseWS (hr ▸ List.mem_cons_self e r) with h32 | ⟨_, hns⟩
          · exact he h32
          · rw [hes] at hns; cases hns
    · rw [collapseWS, if_neg hsp]
      refine List.chain'_cons'.2 ⟨fun y hy ⟨hcs, _⟩ => ?_, ih⟩
      exact hsp (by simpa using hcs)

theorem collapseWS_fixed :
    ∀ {l : List Nat}, (∀ c ∈ l, isSpaceCh c = true → c = 32) → NoAdjSpaces l →
      collapseWS l = l
  | [], _, _ => rfl
  | c :: cs, h32, hchain => by
    have ih : collapseWS cs = cs :=
      collapseWS_fixed (fun d hd => h32 d (List.mem_cons_of_mem c hd))
        (List.Chain'.tail hchain)
    by_cases hsp : isSpaceCh c
    · have hc32 : c = 32 := h32 c (List.mem_cons_self c cs) (by simpa using hsp)
      rcases hcs : cs with _ | ⟨d, r⟩
      · subst hcs
        rw [collapseWS, if_pos hsp]
        dsimp only [collapseWS]
        rw [hc32]
      · subst hcs
        have hd : ¬(isSpaceCh c = true ∧ isSpaceCh d = true) :=
          (List.chain'_cons.1 hchain).1
        have hdns : isSpaceCh d = false := by
          rcases hds : isSpaceCh d
          · rfl
          · exact absurd ⟨by simpa using hsp, hds⟩ hd
        have hd32 : d ≠ 32 := by
          intro h; rw [h] at hdns; cases hdns
        rw [collapseWS, if_pos hsp, ih]
        dsimp only
        rw [if_neg hd32, hc32]
    · rw [collapseWS, if_neg hsp, ih]

theorem dropWhile_idem (p : Nat → Bool) :
    ∀ l : List Nat, List.dropWhile p (List.dropWhile p l) = List.dropWhile p l
  | [] => rfl
  | c :: cs => by
    by_cases hc : p c
    · rw [List.dropWhile_cons_of_pos hc]; exact dropWhile_idem p cs
    · rw [List.dropWhile_cons_of_neg hc, List.dropWhile_cons_of_neg hc]

theorem rstripWS_eq_nil_iff :
    ∀ {l : List Nat}, rstripWS l = [] ↔ ∀ c ∈ l, isSpaceCh c = true
  | [] => by simp [rstripWS]
  | c :: cs => by
    rcases h : rstripWS cs with _ | ⟨d, r⟩
    · have ih := (rstripWS_eq_nil_iff (l := cs)).1 h
      by_cases hsp : isSpaceCh c
      · rw [rstripWS, h, if_pos hsp]
        simp only [true_iff, List.mem_cons]
        rintro x (rfl | hx)
        · exact hsp
        · exact ih x hx
      · rw [rstripWS, h, if_neg hsp]
        constructor
        · intro hc; cases hc
        · intro hall; exact absurd (hall c (List.mem_cons_self c cs)) hsp
    · rw [rstripWS, h]
      constructor
      · intro hc; cases hc
      · intro hall
        have : rstripWS cs = [] := rstripWS_eq_nil_iff.2
          (fun x hx => hall x (List.mem_cons_of_mem c hx))
        rw [this] at h; cases h

theorem rstripWS_isPrefixOf : ∀ l : List Nat, rstripWS l <+: l
  | [] => List.prefix_rfl
  | c :: cs => by
    rcases h : rstripWS cs with _ | ⟨d, r⟩
    · by_cases hsp : isSpaceCh c
      · rw [rstripWS, h, if_pos hsp]; exact List.nil_prefix
      · rw [rstripWS, h, if_neg hsp]
        exact ⟨cs, rfl⟩
    · rw [rstripWS, h]
      obtain ⟨t, ht⟩ := h ▸ rstripWS_isPrefixOf cs
      exact ⟨t, by rw [List.cons_append, ht]⟩

theorem rstripWS_idem : ∀ l : List Nat, rstripWS (rstripWS l) = rstripWS l
  | [] => rfl
  | c :: cs => by
    rcases h : rstripWS cs with _ | ⟨d, r⟩
    · by_cases hsp : isSpaceCh c
      · have e1 : rstripWS (c :: cs) = [] := by rw [rstripWS, h, if_pos hsp]
        rw [e1]
        rfl
      · have e1 : rstripWS (c :: cs) = [c] := by rw [rstripWS, h, if_neg hsp]
        rw [e1, rstripWS]
        dsimp only [rstripWS]
        rw [if_neg hsp]
    · have ih := rstripWS_idem cs
      rw [h] at ih
      have e1 : rstripWS (c :: cs) = c :: d :: r := by rw [rstripWS, h]
      rw [e1, rstripWS, ih]

theorem rstripWS_dropWhile_comm :
    ∀ l : List Nat,
      rstripWS (List.dropWhile isSpaceCh l) = List.dropWhile isSpaceCh (rstripWS l)
  | [] => rfl
  | c :: cs => by
    by_cases hc : isSpaceCh c
    · rcases h : rstripWS cs with _ | ⟨d, r⟩
      · have e1 : rstripWS (c :: cs) = [] := by rw [rstripWS, h, if_pos hc]
        rw [List.dropWhile_cons_of_pos hc, rstripWS_dropWhile_comm cs, h, e1]
      · have e1 : rstripWS (c :: cs) = c :: d :: r := by rw [rstripWS, h]
        rw [List.dropWhile_cons_of_pos hc, rstripWS_dropWhile_comm cs, h, e1,
          List.dropWhile_cons_of_pos hc]
    · rcases h : rstripWS cs with _ | ⟨d, r⟩
      · have e1 : rstripWS (c :: cs) = [c] := by rw [rstripWS, h, if_neg hc]
        rw [List.dropWhile_cons_of_neg hc, e1, List.dropWhile_cons_of_neg hc]
      · have e1 : rstripWS (c :: cs) = c :: d :: r := by rw [rstripWS, h]
        rw [List.dropWhile_cons_of_neg hc, e1, List.dropWhile_cons_of_neg hc]

theorem pyStrip_idem (l : List Nat) : pyStrip (pyStrip l) = pyStrip l := by
  unfold pyStrip
  rw [← rstripWS_dropWhile_comm, dropWhile_idem, rstripWS_idem]

theorem mem_pyStrip {c : Nat} {l : List Nat} (h : c ∈ pyStrip l) : c ∈ l := by
  unfold pyStrip at h
  exact (List.dropWhile_sublist isSpaceCh).subset ((rstripWS_isPrefixOf _).sublist.subset h)

theorem pyStrip_chain {R : Nat → Nat → Prop} {l : List Nat} (h : l.Chain' R) :
    (pyStrip l).Chain' R := by
  unfold pyStrip
  have hd : (List.dropWhile isSpaceCh l).Chain' R := by
    induction l with
    | nil => exact List.chain'_nil
    | cons c cs ih =>
      by_cases hc : isSpaceCh c
      · rw [List.dropWhile_cons_of_pos hc]; exact ih h.tail
      · rw [List.dropWhile_cons_of_neg hc]; exact h
  exact hd.prefix (rstripWS_isPrefixOf _)

theorem lowerCh_not_upper (c : Nat) : isUpperCh (lowerCh c) = false := by
  simp only [isUpperCh, lowerCh]
  split <;> simp <;> omega

theorem map_lowerCh_id {l : List Nat} (h : ∀ c ∈ l, isUpperCh c = false) :
    l.map lowerCh = l := by
  have : ∀ c ∈ l, lowerCh c = c := by
    intro c hc
    have := h c hc
    simp only [isUpperCh] at this
    simp only [lowerCh]
    rw [if_neg]
    intro ⟨h1, h2⟩
    simp at this
    omega
  exact (List.map_congr_left this).trans (List.map_id l)

theorem goodCh_of {c : Nat} (hkeep : keepCh c = true) (hns : isSpaceCh c = false)
    (hnu : isUpperCh c = false) : goodCh c = true := by
  simp only [keepCh, isAlnumCh, isDigitCh, isUpperCh, isLowerCh, isSpaceCh, goodCh,
    Bool.or_eq_true, Bool.or_eq_false_iff, Bool.and_eq_true, Bool.and_eq_false_iff,
    decide_eq_true_eq, decide_eq_false_iff_not] at *
  omega

theorem mem_clean_good {c : Nat} {s : PyStr} (h : c ∈ clean_text s) : goodCh c = true := by
  unfold clean_text at h
  split at h
  · cases h
  · have h1 := mem_pyStrip h
    have hkeep := List.of_mem_filter h1
    have h2 := List.mem_of_mem_filter h1
    rcases mem_collapseWS h2 with rfl | ⟨hm, hns⟩
    · simp [goodCh]
    · obtain ⟨a, _, rfl⟩ := List.mem_map.1 hm
      exact goodCh_of hkeep hns (lowerCh_not_upper a)

theorem keep_of_good {c : Nat} (h : goodCh c = true) : keepCh c = true := by
  simp only [keepCh, isAlnumCh, isDigitCh, isUpperCh, isLowerCh, isSpaceCh, goodCh,
    Bool.or_eq_true, Bool.and_eq_true, decide_eq_true_eq] at *
  omega

theorem upper_false_of_good {c : Nat} (h : goodCh c = true) : isUpperCh c = false := by
  simp only [isUpperCh, isDigitCh, isLowerCh, goodCh, Bool.or_eq_true,
    Bool.and_eq_true, Bool.and_eq_false_iff, decide_eq_true_eq,
    decide_eq_false_iff_not] at *
  omega

theorem space32_of_good {c : Nat} (h : goodCh c = true) (hs : isSpaceCh c = true) :
    c = 32 := by
  simp only [isSpaceCh, isDigitCh, isLowerCh, goodCh, Bool.or_eq_true,
    Bool.and_eq_true, decide_eq_true_eq] at *
  omega

theorem clean_of_good {u : PyStr} (hg : ∀ c ∈ u, goodCh c = true) :
    clean_text u = pyStrip (collapseWS u) := by
  unfold clean_text
  split
  · rename_i hnil
    subst hnil
    rfl
  · rw [map_lowerCh_id (fun c hc => upper_false_of_good (hg c hc))]
    rw [List.filter_eq_self.2 (fun c hc => ?_)]
    rcases mem_collapseWS hc with rfl | ⟨hm, _⟩
    · simp [keepCh, isSpaceCh]
    · exact keep_of_good (hg c hm)

theorem clean_fixed {t : PyStr} (hg : ∀ c ∈ t, goodCh c = true)
    (hchain : NoAdjSpaces t) (hstrip : pyStrip t = t) : clean_text t = t := by
  rw [clean_of_good hg,
    collapseWS_fixed (fun c hc hs => space32_of_good (hg c hc) hs) hchain, hstrip]

theorem head?_dropWhile_not {p : Nat → Bool} :
    ∀ {l : List Nat} {c : Nat}, (List.dropWhile p l).head? = some c → p c = false
  | [], _, h => by cases h
  | d :: cs, c, h => by
    by_cases hd : p d
    · rw [List.dropWhile_cons_of_pos hd] at h
      exact head?_dropWhile_not h
    · rw [List.dropWhile_cons_of_neg hd] at h
      cases h
      simpa using hd

theorem prefix_head_eq {l₁ l₂ : List Nat} {c : Nat} (hp : l₁ <+: l₂)
    (h : l₁.head? = some c) : l₂.head? = some c := by
  obtain ⟨t, rfl⟩ := hp
  cases l₁ with
  | nil => cases h
  | cons a as => simpa using h

theorem clean_head_not_space {s : PyStr} {c : Nat}
    (h : (clean_text s).head? = some c) : isSpaceCh c = false := by
  unfold clean_text at h
  split at h
  · cases h
  · unfold pyStrip at h
    exact head?_dropWhile_not (prefix_head_eq (rstripWS_isPrefixOf _) h)

theorem rstripWS_getLast_not_space :
    ∀ {l : List Nat} {c : Nat}, (rstripWS l).getLast? = some c → isSpaceCh c = false
  | [], _, h => by cases h
  | d :: cs, c, h => by
    rcases he : rstripWS cs with _ | ⟨e, r⟩
    · rw [rstripWS, he] at h
      by_cases hd : isSpaceCh d
      · rw [if_pos hd] at h
        simp at h
      · rw [if_neg hd] at h
        simp only [List.getLast?_singleton, Option.some.injEq] at h
        subst h
        simpa using hd
    · rw [rstripWS, he, List.getLast?_cons_cons] at h
      exact rstripWS_getLast_not_space (he ▸ h)

theorem clean_getLast_not_space {s : PyStr} {c : Nat}
    (h : (clean_text s).getLast? = some c) : isSpaceCh c = false := by
  unfold clean_text at h
  split at h
  · cases h
  · unfold pyStrip at h
    exact rstripWS_getLast_not_space h

/-- Claim C4, counterexample: preprocessing is not idempotent.  On the
input "a ? b" one application of clean_text yields "a  b" (removing the
question mark leaves two adjacent spaces, and no later pass collapses
them), while a second application yields "a b". -/
theorem claim_C4_counterexample :
    clean_text (clean_text (pystr "a ? b")) ≠ clean_text (pystr "a ? b") := by
  decide

/-- Claim C4, amended: clean_text is not idempotent, because removing a
character outside [a-zA-Z0-9\s] can join two single spaces into a run
that is collapsed only by a later application; it is idempotent from the
second application on, i.e. composing clean_text three times equals
composing it twice, and hence re-preprocessing an already twice-cleaned
sequence changes nothing. -/
theorem claim_C4 (s : PyStr) :
    clean_text (clean_text (clean_text s)) = clean_text (clean_text s) := by
  have hgu : ∀ c ∈ clean_text s, goodCh c = true := fun _ hc => mem_clean_good hc
  rw [clean_of_good hgu]
  have hgt : ∀ c ∈ pyStrip (collapseWS (clean_text s)), goodCh c = true := by
    intro c hc
    rcases mem_collapseWS (mem_pyStrip hc) with rfl | ⟨hm, _⟩
    · simp [goodCh]
    · exact hgu c hm
  exact clean_fixed hgt (pyStrip_chain (collapseWS_noAdjSpaces _)) (pyStrip_idem _)

/-- Claim C10 (confirmed): every string produced by preprocess_responses
consists only of characters in [a-z0-9 ] and has no leading or trailing
space; exactly the truthy (non-None, non-empty) answers survive, so a
non-empty answer made only of excluded characters, such as "???", is
kept as an empty string rather than dropped. -/
theorem claim_C10 (rs : List SResponse) :
    (preprocess_responses rs).length = (rs.filter (fun r => pyTruthy r.answer)).length
    ∧ (preprocess_responses rs).Forall (fun t =>
        t.Forall (fun c => goodCh c = true)
        ∧ t.head? ≠ some 32 ∧ t.getLast? ≠ some 32)
    ∧ preprocess_responses [⟨some (pystr "???")⟩] = [[]] := by
  refine ⟨by simp [preprocess_responses], ?_, by decide⟩
  rw [List.forall_iff_forall_mem]
  intro t ht
  have ht2 : ∃ r, (r ∈ rs ∧ pyTruthy r.answer = true)
      ∧ clean_text (answerVal r.answer) = t := by
    simpa [preprocess_responses] using ht
  obtain ⟨r, _, rfl⟩ := ht2
  refine ⟨List.forall_iff_forall_mem.2 (fun c hc => mem_clean_good hc), ?_, ?_⟩
  · intro hh
    have := clean_head_not_space hh
    simp [isSpaceCh] at this
  · intro hh
    have := clean_getLast_not_space hh
    simp [isSpaceCh] at this

/-- Claim C8 (confirmed): create_response raises HTTP 400 exactly when a
response by the same (user, question) pair already exists; on that error
the stored state is unchanged, and the at-most-one-response-per-pair
invariant of the unique_user_response constraint is preserved. -/
theorem claim_C8 (db : DBState) (u q : Nat) (a : PyStr) :
    ((create_response db u q a).2 =
        .error ⟨400, "Maaf, Anda sudah mengisi kuisioner ini sebelumnya."⟩
      ↔ ∃ r ∈ db.responses, r.user_id = u ∧ r.question_id = q)
    ∧ (∀ e, (create_response db u q a).2 = .error e → (create_response db u q a).1 = db)
    ∧ (uniquePairs db → uniquePairs (create_response db u q a).1) := by
  unfold create_response
  rcases hf : db.responses.find? (fun r => r.user_id == u && r.question_id == q)
    with _ | r0
  · rw [hf]
    dsimp only
    rw [List.find?_eq_none] at hf
    refine ⟨?_, ?_, ?_⟩
    · constructor
      · intro h
        cases h
      · rintro ⟨r, hr, h1, h2⟩
        have := hf r hr
        simp [h1, h2] at this
    · intro e he
      cases he
    · intro hu
      unfold uniquePairs at hu ⊢
      simp only []
      rw [List.pairwise_append]
      refine ⟨hu, List.pairwise_singleton _ _, ?_⟩
      intro x hx y hy
      rw [List.mem_singleton] at hy
      subst hy
      rintro ⟨h1, h2⟩
      have := hf x hx
      simp [h1, h2] at this
  · rw [hf]
    dsimp only
    refine ⟨?_, fun _ _ => rfl, fun h => h⟩
    constructor
    · intro _
      refine ⟨r0, List.mem_of_find?_eq_some hf, ?_⟩
      have := List.find?_some hf
      simpa using this
    · intro _
      rfl

/-- Witness for claim C8: a store holding one row for the pair (1, 2)
keeps the uniqueness invariant after inserting an answer for (3, 4). -/
theorem claim_C8_witness :
    uniquePairs (create_response ⟨[⟨1, 2, pystr "x"⟩]⟩ 3 4 (pystr "y")).1 :=
  (claim_C8 ⟨[⟨1, 2, pystr "x"⟩]⟩ 3 4 (pystr "y")).2.2 (by decide)

/-! Helper lemmas about analyze_sentiment. -/

theorem classifyPol_pos_iff {p : ℚ} : classifyPol p = "positive" ↔ 1/10 < p := by
  unfold classifyPol
  split_ifs with h1 h2 <;> simp_all

theorem classifyPol_neg_iff {p : ℚ} : classifyPol p = "negative" ↔ p < -(1/10) := by
  unfold classifyPol
  split_ifs with h1 h2
  · simp_all
    linarith
  · simp_all
  · simp_all

theorem classifyPol_neu_iff {p : ℚ} :
    classifyPol p = "neutral" ↔ -(1/10) ≤ p ∧ p ≤ 1/10 := by
  unfold classifyPol
  split_ifs with h1 h2 <;> simp_all

theorem sentimentLoop_details (pol : PyStr → ℚ) :
    ∀ rs : List SResponse,
      (sentimentLoop pol rs).2 =
        (truthyAnswers rs).map
          (fun s => ⟨s, classifyPol (pol s), pyRound 3 (pol s)⟩)
  | [] => rfl
  | r :: rs => by
    have ih := sentimentLoop_details pol rs
    by_cases ht : pyTruthy r.answer
    · simp only [sentimentLoop, ht, if_true]
      rw [ih]
      simp [truthyAnswers, ht]
    · simp only [sentimentLoop, ht, if_false]
      simpa [truthyAnswers, ht, List.map_map] using ih

theorem sentimentLoop_sum (pol : PyStr → ℚ) :
    ∀ rs : List SResponse,
      (sentimentLoop pol rs).1.positive + (sentimentLoop pol rs).1.neutral
        + (sentimentLoop pol rs).1.negative = (sentimentLoop pol rs).2.length
  | [] => rfl
  | r :: rs => by
    have ih := sentimentLoop_sum pol rs
    by_cases ht : pyTruthy r.answer
    · simp only [sentimentLoop, ht, if_true]
      unfold bumpSummary
      split_ifs <;> simp <;> omega
    · simp only [sentimentLoop, ht, if_false]
      exact ih

/-- Claim C5 (confirmed): every retained detail of compute_sentiment is
labelled positive exactly when its polarity exceeds 0.1, negative
exactly when it is below -0.1, neutral otherwise, and records the
polarity rounded to three decimals; empty or None answers are skipped,
appearing in neither the details nor the summary counts. -/
theorem claim_C5 (pol : PyStr → ℚ) (rs : List SResponse) :
    (analyze_sentiment pol rs).details.Forall (fun d =>
      (d.sentiment = "positive" ↔ 1/10 < pol d.answer)
      ∧ (d.sentiment = "negative" ↔ pol d.answer < -(1/10))
      ∧ (d.sentiment = "neutral" ↔ -(1/10) ≤ pol d.answer ∧ pol d.answer ≤ 1/10)
      ∧ d.polarity = pyRound 3 (pol d.answer))
    ∧ (analyze_sentiment pol rs).details.map SentimentDetail.answer = truthyAnswers rs
    ∧ (analyze_sentiment pol rs).summary.positive
        + (analyze_sentiment pol rs).summary.neutral
        + (analyze_sentiment pol rs).summary.negative = (truthyAnswers rs).length := by
  have hd := sentimentLoop_details pol rs
  have hs := sentimentLoop_sum pol rs
  unfold analyze_sentiment
  dsimp only
  refine ⟨?_, ?_, ?_⟩
  · rw [hd, List.forall_iff_forall_mem]
    intro d hdm
    obtain ⟨s, _, rfl⟩ := List.mem_map.1 hdm
    exact ⟨classifyPol_pos_iff, classifyPol_neg_iff, classifyPol_neu_iff, rfl⟩
  · rw [hd, List.map_map]
    exact (List.map_congr_left (fun s _ => rfl)).trans (List.map_id _)
  · rw [hs, hd, List.length_map]

/-- Claim C9 (confirmed): the summary counts of compute_sentiment sum to
the reported total, which equals the length of the details list, and
each detail is labelled by the threshold rule applied to the unrounded
polarity of its answer. -/
theorem claim_C9 (pol : PyStr → ℚ) (rs : List SResponse) :
    (analyze_sentiment pol rs).summary.positive
        + (analyze_sentiment pol rs).summary.neutral
        + (analyze_sentiment pol rs).summary.negative = (analyze_sentiment pol rs).total
    ∧ (analyze_sentiment pol rs).total = (analyze_sentiment pol rs).details.length
    ∧ (analyze_sentiment pol rs).details.Forall
        (fun d => d.sentiment = classifyPol (pol d.answer)) := by
  have hd := sentimentLoop_details pol rs
  have hs := sentimentLoop_sum pol rs
  unfold analyze_sentiment
  dsimp only
  refine ⟨hs, rfl, ?_⟩
  rw [hd, List.forall_iff_forall_mem]
  intro d hdm
  obtain ⟨s, _, rfl⟩ := List.mem_map.1 hdm
  rfl

/-- Claim C6 (confirmed, conditional as the spec states it): on the
corpus of the three Indonesian sentences, provided the polarity the
analyzer assigns each sentence falls in the expected bucket, the
summary is exactly one positive, one negative and one neutral. -/
theorem claim_C6 (pol : PyStr → ℚ)
    (h1 : 1/10 < pol (pystr "saya suka produk ini"))
    (h2 : pol (pystr "produk ini buruk sekali") < -(1/10))
    (h3 : -(1/10) ≤ pol (pystr "lumayan biasa saja"))
    (h4 : pol (pystr "lumayan biasa saja") ≤ 1/10) :
    (analyze_sentiment pol
      [⟨some (pystr "saya suka produk ini")⟩,
       ⟨some (pystr "produk ini buruk sekali")⟩,
       ⟨some (pystr "lumayan biasa saja")⟩]).summary = ⟨1, 1, 1⟩ := by
  have c1 := classifyPol_pos_iff.2 h1
  have c2 := classifyPol_neg_iff.2 h2
  have c3 := classifyPol_neu_iff.2 ⟨h3, h4⟩
  have t1 : pyTruthy (some (pystr "saya suka produk ini")) = true := by decide
  have t2 : pyTruthy (some (pystr "produk ini buruk sekali")) = true := by decide
  have t3 : pyTruthy (some (pystr "lumayan biasa saja")) = true := by decide
  simp only [analyze_sentiment, sentimentLoop, t1, t2, t3, if_true, answerVal,
    c1, c2, c3]
  simp [bumpSummary]

/-- A polarity oracle placing the three scenario sentences in the
positive, negative and neutral buckets respectively. -/
def polC6 : PyStr → ℚ := fun s =>
  if s = pystr "saya suka produk ini" then 1/5
  else if s = pystr "produk ini buruk sekali" then -(1/5)
  else 0

/-- Witness for claim C6 at the oracle polC6. -/
theorem claim_C6_witness :
    (analyze_sentiment polC6
      [⟨some (pystr "saya suka produk ini")⟩,
       ⟨some (pystr "produk ini buruk sekali")⟩,
       ⟨some (pystr "lumayan biasa saja")⟩]).summary = ⟨1, 1, 1⟩ :=
  claim_C6 polC6
    (by unfold polC6; rw [if_pos rfl]; norm_num)
    (by unfold polC6; rw [if_neg (by decide), if_pos rfl]; norm_num)
    (by unfold polC6; rw [if_neg (by decide), if_neg (by decide)]; norm_num)
    (by unfold polC6; rw [if_neg (by decide), if_neg (by decide)]; norm_num)

/-! Helper lemmas about text_statistics. -/

theorem listMinN_le : ∀ (l : List Nat), ∀ x ∈ l, listMinN l ≤ x
  | [], x, hx => absurd hx (List.not_mem_nil x)
  | [a], x, hx => by
    rw [List.mem_singleton] at hx
    subst hx
    exact le_refl _
  | a :: b :: t, x, hx => by
    rcases List.mem_cons.1 hx with rfl | hx2
    · exact min_le_left _ _
    · exact le_trans (min_le_right _ _) (listMinN_le (b :: t) x hx2)

theorem le_listMaxN : ∀ (l : List Nat), ∀ x ∈ l, x ≤ listMaxN l
  | [], x, hx => absurd hx (List.not_mem_nil x)
  | [a], x, hx => by
    rw [List.mem_singleton] at hx
    subst hx
    exact le_refl _
  | a :: b :: t, x, hx => by
    rcases List.mem_cons.1 hx with rfl | hx2
    · exact le_max_left _ _
    · exact le_trans (le_listMaxN (b :: t) x hx2) (le_max_right _ _)

/-- Claim C7 (confirmed): text_statistics returns the explicit no-data
error exactly when the corpus is empty or all its answers are empty or
None, and otherwise returns the computed statistics; in the model all
numbers are exact rationals produced behind the emptiness guard, so no
NaN and no division-by-zero error can arise. -/
theorem claim_C7 (rs : List SResponse) :
    (truthyAnswers rs = [] ↔ text_statistics rs = .error "No text data available")
    ∧ (truthyAnswers rs ≠ [] → ∃ st, text_statistics rs = .ok st
        ∧ st.total_responses = (truthyAnswers rs).length
        ∧ 0 < st.total_responses
        ∧ st.total_words = ((truthyAnswers rs).map wordCount).sum
        ∧ st.min_words ≤ st.max_words
        ∧ ∀ w ∈ (truthyAnswers rs).map wordCount,
            st.min_words ≤ w ∧ w ≤ st.max_words) := by
  by_cases he : (truthyAnswers rs).isEmpty
  · have he2 : truthyAnswers rs = [] := List.isEmpty_iff.1 he
    refine ⟨⟨fun _ => ?_, fun _ => he2⟩, fun hne => absurd he2 hne⟩
    rw [text_statistics, if_pos he]
  · have he2 : truthyAnswers rs ≠ [] := by simpa [List.isEmpty_iff] using he
    refine ⟨⟨fun h => absurd h he2, fun h => ?_⟩, fun _ => ?_⟩
    · rw [text_statistics, if_neg he] at h
      cases h
    · refine ⟨tsOf (truthyAnswers rs), by rw [text_statistics, if_neg he], rfl,
        List.length_pos.2 he2, rfl, ?_, ?_⟩
      · obtain ⟨a, ha⟩ := List.exists_mem_of_ne_nil _ he2
        have hma : wordCount a ∈ (truthyAnswers rs).map wordCount :=
          List.mem_map_of_mem wordCount ha
        exact le_trans (listMinN_le _ _ hma) (le_listMaxN _ _ hma)
      · intro w hw
        exact ⟨listMinN_le _ _ hw, le_listMaxN _ _ hw⟩

/-- Input for the witness of claim C7: two non-empty answers. -/
def rsC7 : List SResponse := [⟨some (pystr "hello world")⟩, ⟨some (pystr "one")⟩]

/-- Witness for claim C7: on a concrete two-answer corpus the statistics
are returned with the stated invariants. -/
theorem claim_C7_witness :
    ∃ st, text_statistics rsC7 = .ok st
      ∧ st.total_responses = (truthyAnswers rsC7).length
      ∧ 0 < st.total_responses
      ∧ st.total_words = ((truthyAnswers rsC7).map wordCount).sum
      ∧ st.min_words ≤ st.max_words
      ∧ ∀ w ∈ (truthyAnswers rsC7).map wordCount,
          st.min_words ≤ w ∧ w ≤ st.max_words :=
  (claim_C7 rsC7).2 (by decide)

/-! Helper lemmas about slicing, argsort and the vectorizer vocabulary. -/

theorem pyTail_eq_drop {α : Type} (s : Int) (l : List α) : ∃ k, pyTail s l = l.drop k := by
  unfold pyTail
  split
  · exact ⟨s.toNat, rfl⟩
  · exact ⟨l.length - (-s).toNat, rfl⟩

theorem pyTail_subset {α : Type} (s : Int) (l : List α) : pyTail s l ⊆ l := by
  obtain ⟨k, hk⟩ := pyTail_eq_drop s l
  rw [hk]
  exact (List.drop_sublist k l).subset

theorem pyTail_neg_eq {α : Type} (n : Nat) (hn : 1 ≤ n) (l : List α) :
    pyTail (-(n : Int)) l = l.drop (l.length - n) := by
  unfold pyTail
  rw [if_neg (by omega)]
  simp

theorem argsortAsc_perm (row : List ℚ) :
    List.Perm (argsortAsc row) (List.range row.length) := by
  unfold argsortAsc
  have h := (List.perm_insertionSort qnLe
    ((List.range row.length).map (fun i => (row.getD i 0, i)))).map Prod.snd
  have e : List.map Prod.snd ((List.range row.length).map (fun i => (row.getD i 0, i)))
      = List.range row.length := by
    rw [List.map_map]
    exact (List.map_congr_left (fun i _ => rfl)).trans (List.map_id _)
  rw [e] at h
  exact h

theorem argsortAsc_length (row : List ℚ) : (argsortAsc row).length = row.length := by
  rw [(argsortAsc_perm row).length_eq, List.length_range]

theorem argsortAsc_mem_lt {row : List ℚ} {i : ℕ} (h : i ∈ argsortAsc row) :
    i < row.length :=
  List.mem_range.1 ((argsortAsc_perm row).mem_iff.1 h)

theorem argsortAsc_values_sorted (row : List ℚ) :
    ((argsortAsc row).map (fun i => row.getD i 0)).Pairwise (· ≤ ·) := by
  unfold argsortAsc
  have hs := List.sorted_insertionSort qnLe
    ((List.range row.length).map (fun i => (row.getD i 0, i)))
  have hmem : ∀ p ∈ List.insertionSort qnLe
      ((List.range row.length).map (fun i => (row.getD i 0, i))),
      ((fun i => row.getD i 0) ∘ Prod.snd) p = Prod.fst p := by
    intro p hp
    have hp2 := (List.perm_insertionSort qnLe _).mem_iff.1 hp
    obtain ⟨i, _, rfl⟩ := List.mem_map.1 hp2
    rfl
  rw [List.map_map, List.map_congr_left hmem, List.pairwise_map]
  refine hs.imp ?_
  rintro a b (hab | ⟨hab, _⟩)
  · exact le_of_lt hab
  · exact le_of_eq hab

theorem ldaSel_length {row : List ℚ} {nw : Nat} (h1 : 1 ≤ nw) (h2 : nw ≤ row.length) :
    (ldaSel row nw).length = nw := by
  unfold ldaSel
  rw [List.length_reverse, pyTail_neg_eq nw h1, List.length_drop, argsortAsc_length]
  omega

theorem ldaSel_mem_lt {row : List ℚ} {nw i : Nat} (h : i ∈ ldaSel row nw) :
    i < row.length := by
  unfold ldaSel at h
  rw [List.mem_reverse] at h
  exact argsortAsc_mem_lt (pyTail_subset _ _ h)

theorem ldaSel_weights_desc (row : List ℚ) (nw : Nat) :
    ((ldaSel row nw).map (fun i => row.getD i 0)).Pairwise (fun a b => b ≤ a) := by
  unfold ldaSel
  rw [List.map_reverse, List.pairwise_reverse]
  obtain ⟨k, hk⟩ := pyTail_eq_drop (-(nw : Int)) (argsortAsc row)
  rw [hk, List.map_drop]
  exact (argsortAsc_values_sorted row).sublist (List.drop_sublist _ _)

theorem buildVocabulary_ok_eq {minDf maxNum maxDen : Nat} {texts voc : List PyStr}
    (h : buildVocabulary minDf maxNum maxDen texts = .ok voc) :
    voc = prunedVocab minDf maxNum maxDen texts := by
  unfold buildVocabulary at h
  split at h
  · cases h
  · split at h
    · cases h
    · split at h
      · cases h
      · injection h with h
        exact h.symm

theorem mem_prunedVocab_not_stop {minDf maxNum maxDen : Nat} {texts : List PyStr}
    {w : PyStr} (hw : w ∈ prunedVocab minDf maxNum maxDen texts) :
    w ∉ stopWordsP := by
  unfold prunedVocab sortTokens at hw
  have h1 := List.mem_of_mem_filter hw
  have h2 : w ∈ rawVocab texts := (List.perm_insertionSort _ _).mem_iff.1 h1
  unfold rawVocab at h2
  have h3 := List.of_mem_filter (List.mem_dedup.1 h2)
  simpa using h3

/-- A components oracle; the structural claims hold for every oracle, so
the concrete instances use the zero matrix. -/
def compZero : Nat → Nat → ℚ := fun _ _ => 0

/-- Corpus of three distinct one-word answers: each term has document
frequency 1, so min_df=2 prunes the whole vocabulary. -/
def rsC1 : List SResponse :=
  [⟨some (pystr "apple")⟩, ⟨some (pystr "banana")⟩, ⟨some (pystr "cherry")⟩]

/-- Corpus of three answers in which every term appears in exactly two
documents, so the pruned vocabulary is [apple, banana, cherry]. -/
def rsC1w : List SResponse :=
  [⟨some (pystr "apple banana")⟩, ⟨some (pystr "apple cherry")⟩,
   ⟨some (pystr "banana cherry")⟩]

/-- Claim C1, counterexample: a corpus of size 3 = K on which
compute_topics crashes.  Every term occurs in one document only, min_df=2
prunes them all, and CountVectorizer raises ValueError - so size ≥ K does
not prevent a crash. -/
theorem claim_C1_counterexample :
    (preprocess_responses rsC1).length = 3
    ∧ lda_topic_modeling compZero rsC1 3 5 =
        .valueError
          "After pruning, no terms remain. Try a lower min_df or a higher max_df." := by
  decide

/-- Claim C1, amended: for corpora smaller than K, compute_topics returns
the structured insufficient-data entry (no exception); for corpora of
size at least K whose pruned vocabulary is nonempty it returns exactly K
topics, never reducing K; but when document-frequency pruning leaves no
terms (each term in fewer than 2 documents or in more than 95 percent of
them, or only stop words), the vectorizer raises ValueError even though
the corpus has at least K documents. -/
theorem claim_C1 (comp : Nat → Nat → ℚ) (rs : List SResponse) (K nw : Nat) :
    ((preprocess_responses rs).length < K →
      lda_topic_modeling comp rs K nw =
        .errorDict "Not enough responses for topic modeling")
    ∧ (K ≤ (preprocess_responses rs).length →
        ∀ voc, buildVocabulary 2 95 100 (preprocess_responses rs) = .ok voc →
          ∃ ts, lda_topic_modeling comp rs K nw =
              .ok ts (preprocess_responses rs).length
            ∧ ts.length = K) := by
  constructor
  · intro h
    rw [lda_topic_modeling, if_pos h]
  · intro hK voc hvoc
    rw [lda_topic_modeling, if_neg (not_lt.2 hK), hvoc]
    exact ⟨_, rfl, by simp⟩

/-- Witness for claim C1: on the corpus rsC1w (size 3, vocabulary
[apple, banana, cherry]) compute_topics returns exactly 3 topics. -/
theorem claim_C1_witness :
    ∃ ts, lda_topic_modeling compZero rsC1w 3 5 =
        .ok ts (preprocess_responses rsC1w).length
      ∧ ts.length = 3 :=
  (claim_C1 compZero rsC1w 3 5).2 (by decide)
    [pystr "apple", pystr "banana", pystr "cherry"] (by decide)

/-- Corpus whose pruned vocabulary is exactly [apple, cherry]: apple and
cherry occur in two documents each, dog in one. -/
def rsC2 : List SResponse :=
  [⟨some (pystr "apple apple")⟩, ⟨some (pystr "apple cherry")⟩,
   ⟨some (pystr "cherry dog")⟩]

/-- The list of per-topic word counts of a topics payload. -/
def topicsWordCounts : TopicResult → Option (List Nat)
  | .ok ts _ => some (ts.map (fun t => t.words.length))
  | _ => none

/-- Claim C2, counterexample: a corpus of size 3 ≥ K on which every
returned topic carries 2 terms, not the requested default n_words = 5:
the slice argsort()[-n_words:] silently clips to the vocabulary size. -/
theorem claim_C2_counterexample :
    (preprocess_responses rsC2).length = 3
    ∧ topicsWordCounts (lda_topic_modeling compZero rsC2 3 5) = some [2, 2, 2] := by
  decide

/-- Claim C2, amended: for corpora of size at least K on which the
vectorizer succeeds, compute_topics returns exactly K topics with their
weights in descending order; each topic carries exactly n_words terms
provided 1 ≤ n_words and the pruned vocabulary holds at least n_words
terms - otherwise the topic carries only vocabulary-size terms. -/
theorem claim_C2 (comp : Nat → Nat → ℚ) (rs : List SResponse) (K nw : Nat)
    (voc : List PyStr)
    (hK : K ≤ (preprocess_responses rs).length)
    (hvoc : buildVocabulary 2 95 100 (preprocess_responses rs) = .ok voc)
    (h1 : 1 ≤ nw) (h2 : nw ≤ voc.length) :
    ∃ ts, lda_topic_modeling comp rs K nw =
        .ok ts (preprocess_responses rs).length
      ∧ ts.length = K
      ∧ ∀ t ∈ ts, t.words.length = nw ∧ t.weights.length = nw
          ∧ t.weights.Pairwise (fun a b => b ≤ a) := by
  rw [lda_topic_modeling, if_neg (not_lt.2 hK), hvoc]
  refine ⟨_, rfl, by simp, ?_⟩
  intro t ht
  obtain ⟨idx, _, rfl⟩ := List.mem_map.1 ht
  have hrow : (ldaRow comp voc.length idx).length = voc.length := by
    simp [ldaRow]
  have hsel : (ldaSel (ldaRow comp voc.length idx) nw).length = nw :=
    ldaSel_length h1 (by rw [hrow]; exact h2)
  exact ⟨by simpa [ldaTopic] using hsel, by simpa [ldaTopic] using hsel,
    ldaSel_weights_desc _ _⟩

/-- Witness for claim C2: on the corpus rsC2 with n_words = 2 every topic
carries exactly 2 terms with descending weights. -/
theorem claim_C2_witness :
    ∃ ts, lda_topic_modeling compZero rsC2 3 2 =
        .ok ts (preprocess_responses rsC2).length
      ∧ ts.length = 3
      ∧ ∀ t ∈ ts, t.words.length = 2 ∧ t.weights.length = 2
          ∧ t.weights.Pairwise (fun a b => b ≤ a) :=
  claim_C2 compZero rsC2 3 2 [pystr "apple", pystr "cherry"]
    (by decide) (by decide) (by decide) (by decide)

/-- A TF-IDF score oracle; for the C3 corpus every document holds exactly
one distinct vocabulary term, whose l2-normalised row weight is 1, so the
true column sums are the constant 1 this oracle returns. -/
def scoresOne : Nat → ℚ := fun _ => 1

/-- Corpus whose TF-IDF vocabulary is exactly [apple, banana]. -/
def rsC3 : List SResponse :=
  [⟨some (pystr "apple apple")⟩, ⟨some (pystr "banana")⟩]

/-- Claim C3, counterexample: with top_n = 0 compute_keywords neither
fails fast nor returns at most 0 entries - the slice argsort()[-0:] is
the whole array, so every vocabulary term is returned. -/
theorem claim_C3_counterexample :
    extract_keywords scoresOne rsC3 0 =
      .ok [⟨pystr "banana", 1⟩, ⟨pystr "apple", 1⟩] := by
  decide

/-- Claim C3, amended: compute_keywords returns the empty keyword list on
an empty (or all-falsy) corpus, and for every positive top_n a returned
keyword list has at most top_n entries, none of which is a stop word; but
top_n ≤ 0 is not rejected: top_n = 0 returns every vocabulary term and a
negative top_n returns all but the lowest-scoring ones. -/
theorem claim_C3 (scores : Nat → ℚ) (rs : List SResponse) (top_n : Int) :
    ((preprocess_responses rs).length = 0 →
      extract_keywords scores rs top_n = .ok [])
    ∧ (1 ≤ top_n → ∀ kws, extract_keywords scores rs top_n = .ok kws →
        kws.length ≤ top_n.toNat ∧ ∀ k ∈ kws, k.word ∉ stopWordsP) := by
  constructor
  · intro h
    rw [extract_keywords, if_pos h]
  · intro htop kws hkws
    rw [extract_keywords] at hkws
    split at hkws
    · injection hkws with h
      subst h
      exact ⟨by simp, by simp⟩
    · rcases hvoc : buildVocabulary 1 8 10 (preprocess_responses rs) with m | voc
      · rw [hvoc] at hkws
        cases hkws
      · rw [hvoc] at hkws
        dsimp only at hkws
        injection hkws with h
        subst h
        have hveq := buildVocabulary_ok_eq hvoc
        subst hveq
        constructor
        · rw [List.length_map, List.length_reverse]
          unfold pyTail
          rw [if_neg (by omega), List.length_drop]
          omega
        · intro k hk
          obtain ⟨i, hi, rfl⟩ := List.mem_map.1 hk
          rw [List.mem_reverse] at hi
          have hilt : i < (prunedVocab 1 8 10 (preprocess_responses rs)).length := by
            have := argsortAsc_mem_lt (pyTail_subset _ _ hi)
            simpa using this
          have hmem := List.getD_eq_getElem _ ([] : PyStr) hilt ▸ List.getElem_mem hilt
          exact mem_prunedVocab_not_stop hmem

/-- Witness for claim C3: on the corpus rsC3 with top_n = 10 the result
has at most 10 entries and no stop words. -/
theorem claim_C3_witness :
    (extract_keywords scoresOne rsC3 10 =
        .ok [⟨pystr "banana", 1⟩, ⟨pystr "apple", 1⟩])
    ∧ [Keyword.mk (pystr "banana") 1, Keyword.mk (pystr "apple") 1].length ≤ (10 : Int).toNat
    ∧ ∀ k ∈ [Keyword.mk (pystr "banana") 1, Keyword.mk (pystr "apple") 1],
        k.word ∉ stopWordsP := by
  refine ⟨by decide, ?_⟩
  have h := (claim_C3 scoresOne rsC3 10).2 (by omega)
    [Keyword.mk (pystr "banana") 1, Keyword.mk (pystr "apple") 1] (by decide)
  exact h

end Kuisnesa
